import Mathlib

/-!
Verification of the leeroy build-orchestration engine.

The Go sources (utils.go, github/pull_request.go, jenkins/jenkins.go) are shallowly
embedded: every external call (GitHub API, Jenkins API) is modelled as an oracle in
an `Env` structure, and each embedded function additionally returns the ordered list
of outward side-effect `Event`s it issues, so ordering properties (cancel before
schedule, exactly-one comment, ...) become statements about that trace.
-/

namespace Leeroy

/-- BuildDefinition row of the static build catalog (fields as used by the sources:
`Repo`, `Job`, `Context`, `Custom`, `Downstream`, `DownstreamBuilds`, `ExcludeTargets`). -/
structure Build where
  repo : String
  job : String
  context : String
  custom : Bool
  downstream : Bool
  downstreamBuilds : List String
  excludeTargets : List String
  deriving DecidableEq, Repr

/-- The configuration fields consulted by the embedded code paths: the build catalog,
the commit-selection policy string (`BuildCommits`) and the team allowlist (`Teams`). -/
structure Config where
  builds : List Build
  buildCommits : String
  teams : List String
  deriving Repr

/-- Pull-request data as fetched from GitHub (octokat.PullRequest fields the
sources read: `Number`, `Head.Sha`, `Head.Repo`, `Base.Ref`). -/
structure PRData where
  number : Int
  headSha : String
  headRepoOwner : String
  headRepoName : String
  baseRef : String
  deriving DecidableEq, Repr

/-- One issue comment on a pull request (octokat.Comment fields read by the code:
`User.Login` and `Body`). -/
structure CommentRec where
  userLogin : String
  body : String
  deriving DecidableEq, Repr

/-- Inbound pull-request webhook fields read by githubHandler and
checkIsAuthorizedPRAuthor. -/
structure PRHook where
  action : String
  number : Int
  authorLogin : String
  headSha : String
  baseOwner : String
  baseName : String
  deriving DecidableEq, Repr

/-- Inbound pull-request-review webhook fields read by handlePullRequestReview. -/
structure ReviewHook where
  action : String
  reviewBody : String
  reviewerLogin : String
  prNumber : Int
  repoOwner : String
  repoName : String
  deriving DecidableEq, Repr

/-- Jenkins phase/status notification (jenkins.JenkinsResponse flattened: job name,
build number, url, phase, status and the parameter block). -/
structure JenkinsNotification where
  name : String
  number : Int
  url : String
  phase : String
  status : String
  gitBaseRepo : String
  gitHeadRepo : String
  gitSha : String
  prParam : String
  baseBranch : String
  deriving DecidableEq, Repr

/-- Outward side effects issued by the engine, in program order. -/
inductive Event where
  | cancelCall (job : String) (id : Nat)
  | scheduleCall (job : String) (params : String)
  | statusWrite (repo context sha state : String)
  | commentAdd (body : String)
  deriving DecidableEq, Repr

/-- True when the event is a Jenkins stop-instance call. -/
def Event.isCancel : Event → Bool
  | .cancelCall _ _ => true
  | _ => false

/-- True when the event is a Jenkins buildWithParameters call. -/
def Event.isSchedule : Event → Bool
  | .scheduleCall _ _ => true
  | _ => false

/-- True when the event is a PR comment. -/
def Event.isComment : Event → Bool
  | .commentAdd _ => true
  | _ => false

/-- True when the event writes the fixed unauthorized-context failure status. -/
def Event.isUnauthorizedFailure : Event → Bool
  | .statusWrite _ ctx _ st => ctx == "mantid/unauthorized" && st == "failure"
  | _ => false

/-- Oracles for the two external collaborators (GitHub and Jenkins); each field is
the outcome of one kind of outbound call made by the sources. -/
structure Env where
  /-- Outcome of `gh.PullRequest` in getShas (the PR fetched for the event's number). -/
  prFetch : Except String PRData
  /-- Outcome of fetching and decoding `pr.CommitsURL` in getShas: the commit shas in PR order. -/
  commitsFetch : Except String (List String)
  /-- Outcome of `gh.Statuses` for one sha: the contexts that already carry a status. -/
  statuses : String → Except String (List String)
  /-- Outcome of jenkins `GetJobInstance job prNumber` (non-200 or parse failure folded
  into the error case; 0 means no active instance). -/
  jobInstance : String → Int → Except String Nat
  /-- HTTP response code of the jenkins stop call for (job, instance id). -/
  cancelHTTP : String → Nat → Nat
  /-- HTTP response code of the jenkins buildWithParameters call for (job, parameters). -/
  buildHTTP : String → String → Nat
  /-- Outcome of the GitHub SetStatus call for (repo, context, sha, state). -/
  setStatus : String → String → String → String → Except String Unit
  /-- Outcome of the GitHub add-comment call. -/
  addComment : String → Except String Unit
  /-- HTTP response code of the team-membership query for (team, author). -/
  teamStatus : String → String → Except String Nat
  /-- Outcome of attempt number n of LoadPullRequest (the retried full-content load);
  the payload is the PR's comment list, the part of the content the engine reads. -/
  loadContent : Nat → Except String (List CommentRec)
  /-- Modelled from the spec: IsMergeable is not among the sources here (only its
  caller is); the spec says the engine aborts with an OK response when the PR is not
  mergeable, so its outcome is an oracle. -/
  mergeable : Except String Bool
  /-- Outcome of the PR re-fetch inside setValidationCheckPassed. -/
  reviewPRFetch : Except String PRData

deriving instance DecidableEq for Except

/-- True on the `ok` constructor. -/
def exOk {α : Type} : Except String α → Bool
  | .ok _ => true
  | .error _ => false

/-- Model of Go `strings.SplitN(s, "/", 2)` yielding fewer than 2 parts, i.e. the
repo-name parse check: it fails exactly when the string has no slash. -/
def repoHasSlash (s : String) : Bool :=
  s.toList.any (fun c => c == '/')

/-- Model of Go `strings.HasPrefix` on character lists. -/
def listHasPref : List Char → List Char → Bool
  | [], _ => true
  | _ :: _, [] => false
  | p :: ps, c :: cs => p == c && listHasPref ps cs

/-- Helper for `strContains`: does the pattern occur at any position. -/
def listContainsAux (pat : List Char) : List Char → Bool
  | [] => listHasPref pat []
  | c :: cs => listHasPref pat (c :: cs) || listContainsAux pat cs

/-- Model of Go `strings.Contains`. -/
def strContains (s pat : String) : Bool :=
  listContainsAux pat.toList s.toList

/-- Model of Go `unicode.IsSpace` restricted to the ASCII whitespace that
`strings.TrimSpace` strips in the relevant inputs. -/
def isSpaceChar (c : Char) : Bool :=
  c == ' ' || c == '\t' || c == '\n' || c == '\r'

/-- Model of Go `strings.TrimSpace`. -/
def trimSpace (s : String) : String :=
  String.mk (((s.toList.dropWhile isSpaceChar).reverse.dropWhile isSpaceChar).reverse)

/-- ASCII lower-casing of one character. -/
def lowerChar (c : Char) : Char :=
  if 'A' ≤ c && c ≤ 'Z' then Char.ofNat (c.toNat + 32) else c

/-- Model of Go `strings.EqualFold` (ASCII simple folding, which covers the
comparisons the code performs). -/
def equalFold (s t : String) : Bool :=
  s.toList.map lowerChar == t.toList.map lowerChar

/-- Decimal-digit accumulator for `atoiD`. -/
def parseDigitsGo : List Char → Nat → Option Nat
  | [], acc => some acc
  | c :: cs, acc =>
    if '0' ≤ c && c ≤ '9' then parseDigitsGo cs (acc * 10 + (c.toNat - '0'.toNat))
    else none

/-- Model of Go `strconv.Atoi` with the handler's error-discarding use: on a parse
failure the zero value is kept. -/
def atoiD (s : String) : Int :=
  match s.toList with
  | '-' :: cs =>
    match parseDigitsGo cs 0 with
    | some n => -(n : Int)
    | none => 0
  | cs =>
    match parseDigitsGo cs 0 with
    | some n => (n : Int)
    | none => 0

/-- Config.getBuilds from utils.go: all catalog rows matching (baseRepo, isCustom);
an empty result is a NotFound error. -/
def getBuilds (c : Config) (baseRepo : String) (isCustom : Bool) : Except String (List Build) :=
  let builds := c.builds.filter (fun b => b.repo == baseRepo && isCustom == b.custom)
  if builds.length ≤ 0 then Except.error ("Could not find config for " ++ baseRepo)
  else Except.ok builds

/-- Config.getBuildByJob from utils.go: first catalog row with the given job name. -/
def getBuildByJob (c : Config) (job : String) : Except String Build :=
  match c.builds.find? (fun b => b.job == job) with
  | some b => Except.ok b
  | none => Except.error ("Could not find config for " ++ job)

/-- The default status context used when a requested context is empty (its concrete
value is configuration outside these sources; no claim depends on it). -/
def DEFAULTCONTEXT : String := "default"

/-- Config.getBuildByContextAndRepo from utils.go: empty context is normalized to
DEFAULTCONTEXT, then the first row matching (context, repo) is returned. -/
def getBuildByContextAndRepo (c : Config) (context repo : String) : Except String Build :=
  let context := if context == "" then DEFAULTCONTEXT else context
  match c.builds.find? (fun b => b.context == context && b.repo == repo) with
  | some b => Except.ok b
  | none => Except.error ("Could not find config for context: " ++ context ++ ", repo: " ++ repo)

/-- Config.updateGithubStatus from utils.go: parse the owner/name repo string, then
issue one SetStatus write (recorded as an event; description and target URL carry no
decision logic and are omitted from the event payload). -/
def updateGithubStatus (env : Env) (repoName context sha state : String) :
    List Event × Except String Unit :=
  if !(repoHasSlash repoName) then
    ([], Except.error ("repo name could not be parsed: " ++ repoName))
  else
    ([Event.statusWrite repoName context sha state],
      match env.setStatus repoName context sha state with
      | Except.error e => Except.error e
      | Except.ok _ => Except.ok ())

/-- hasStatus from utils.go: fetch the statuses of one sha and scan for the context;
a lookup failure is logged and reported as `false` (no status). -/
def hasStatus (env : Env) (sha context : String) : Bool :=
  match env.statuses sha with
  | Except.error _ => false
  | Except.ok ctxs => ctxs.any (fun s => s == context)

/-- Config.getShas from utils.go: fetch the PR, then under policy `all` or `new`
collect the PR's commit shas in order (policy `new` skips every sha that already has
a status under the target context); under any other policy (`last`) the PR head sha
alone is returned. -/
def getShas (env : Env) (c : Config) (context : String) (number : Int) :
    Except String (List String × PRData) :=
  match env.prFetch with
  | Except.error e => Except.error e
  | Except.ok pr =>
    if c.buildCommits == "all" || c.buildCommits == "new" then
      match env.commitsFetch with
      | Except.error e => Except.error e
      | Except.ok commits =>
        Except.ok
          (commits.filter (fun sha => !(c.buildCommits == "new" && hasStatus env sha context)),
            pr)
    else
      Except.ok ([pr.headSha], pr)

/-- jenkins.Client.BuildWithParameters from jenkins.go: one POST to
buildWithParameters; success is exactly HTTP 201. -/
def BuildWithParameters (env : Env) (job parameters : String) :
    List Event × Except String Unit :=
  ([Event.scheduleCall job parameters],
    if env.buildHTTP job parameters ≠ 201 then
      Except.error ("jenkins post responded with status " ++ toString (env.buildHTTP job parameters))
    else Except.ok ())

/-- jenkins.Client.CancelJobInstance from jenkins.go: one POST to the stop endpoint;
success is exactly HTTP 200. -/
def CancelJobInstance (env : Env) (job : String) (jobId : Nat) :
    List Event × Except String Unit :=
  ([Event.cancelCall job jobId],
    if env.cancelHTTP job jobId ≠ 200 then
      Except.error ("jenkins post responded with status " ++ toString (env.cancelHTTP job jobId))
    else Except.ok ())

/-- The owner/name rendering of a PR's head repo, as built by scheduleJenkinsBuild. -/
def headRepoOf (pr : PRData) : String :=
  pr.headRepoOwner ++ "/" ++ pr.headRepoName

/-- The parameter string scheduleJenkinsBuild posts to Jenkins. -/
def buildParams (baseRepo headRepo sha : String) (number : Int) (baseRef : String) : String :=
  "GIT_BASE_REPO=" ++ baseRepo ++ "&GIT_HEAD_REPO=" ++ headRepo ++ "&GIT_SHA1=" ++ sha ++
    "&GITHUB_URL=" ++ "https://github.com/" ++ baseRepo ++ "/pull/" ++ toString number ++
    "&PR=" ++ toString number ++ "&BASE_BRANCH=" ++ baseRef

/-- The parameter string scheduleJenkinsDownstreamBuild posts to Jenkins (no
BASE_BRANCH; the sha is passed through verbatim). -/
def downstreamParams (baseRepo headRepo sha : String) (number : Int) : String :=
  "GIT_BASE_REPO=" ++ baseRepo ++ "&GIT_HEAD_REPO=" ++ headRepo ++ "&GIT_SHA1=" ++ sha ++
    "&GITHUB_URL=" ++ "https://github.com/" ++ baseRepo ++ "/pull/" ++ toString number ++
    "&PR=" ++ toString number

/-- The per-sha body of the loop in Config.scheduleJenkinsBuild: set the pending
status, then post the build; the first failure aborts the remaining shas. -/
def scheduleShasLoop (env : Env) (baseRepo : String) (build : Build) (pr : PRData) :
    List String → List Event × Except String Unit
  | [] => ([], Except.ok ())
  | sha :: rest =>
    match updateGithubStatus env baseRepo build.context sha "pending" with
    | (ev1, Except.error e) => (ev1, Except.error e)
    | (ev1, Except.ok _) =>
      match BuildWithParameters env build.job
        (buildParams baseRepo (headRepoOf pr) sha pr.number pr.baseRef) with
      | (ev2, Except.error e) => (ev1 ++ ev2, Except.error e)
      | (ev2, Except.ok _) =>
        match scheduleShasLoop env baseRepo build pr rest with
        | (ev3, res3) => (ev1 ++ ev2 ++ ev3, res3)

/-- Config.scheduleJenkinsBuild from utils.go: parse the repo, resolve the shas under
the configured policy, then for each sha write a pending status and post the build. -/
def scheduleJenkinsBuild (env : Env) (c : Config) (baseRepo : String) (number : Int) (build : Build) :
    List Event × Except String Unit :=
  if !(repoHasSlash baseRepo) then
    ([], Except.error ("repo name could not be parsed: " ++ baseRepo))
  else
    match getShas env c build.context number with
    | Except.error e => ([], Except.error e)
    | Except.ok (shas, pr) => scheduleShasLoop env baseRepo build pr shas

/-- Config.cancelJenkinsBuild from utils.go: parse the repo, fetch the PR (via
getShas, whose shas are discarded), look up the active Jenkins instance for
(job, PR number) and stop it when one exists; instance id 0 means none and is a
success without a stop call. -/
def cancelJenkinsBuild (env : Env) (c : Config) (baseRepo : String) (number : Int) (build : Build) :
    List Event × Except String Unit :=
  if !(repoHasSlash baseRepo) then
    ([], Except.error ("repo name could not be parsed: " ++ baseRepo))
  else
    match getShas env c build.context number with
    | Except.error e => ([], Except.error e)
    | Except.ok (_, pr) =>
      match env.jobInstance build.job pr.number with
      | Except.error e => ([], Except.error ("error retrieving jenkins job instance: " ++ e))
      | Except.ok jobId =>
        if jobId ≠ 0 then
          match CancelJobInstance env build.job jobId with
          | (ev, Except.error e) => (ev, Except.error ("error cancelling jenkins build: " ++ e))
          | (ev, Except.ok _) => (ev, Except.ok ())
        else ([], Except.ok ())

/-- The cancellation loop of getBuildsWhileCancellingExisting: cancel each build in
order, aborting on the first failure. -/
def cancelAll (env : Env) (c : Config) (baseRepo : String) (number : Int) :
    List Build → List Event × Except String Unit
  | [] => ([], Except.ok ())
  | b :: rest =>
    match cancelJenkinsBuild env c baseRepo number b with
    | (ev, Except.error e) => (ev, Except.error e)
    | (ev, Except.ok _) =>
      match cancelAll env c baseRepo number rest with
      | (ev2, res2) => (ev ++ ev2, res2)

/-- getBuildsWhileCancellingExisting from pull_request.go: look up all
(repo, custom=false) build definitions and cancel each one's existing Jenkins
instance; any failure is returned and the build list withheld. -/
def getBuildsWhileCancellingExisting (env : Env) (c : Config) (baseRepo : String) (number : Int) :
    List Event × Except String (List Build) :=
  match getBuilds c baseRepo false with
  | Except.error e => ([], Except.error e)
  | Except.ok builds =>
    match cancelAll env c baseRepo number builds with
    | (ev, Except.error e) => (ev, Except.error e)
    | (ev, Except.ok _) => (ev, Except.ok builds)

/-- The scheduling loop of startJenkinsBuilds: schedule every non-downstream build,
stopping with a 500 response on the first failure. -/
def scheduleAllBuilds (env : Env) (c : Config) (baseRepo : String) (number : Int) :
    List Build → List Event × Option Nat
  | [] => ([], none)
  | b :: rest =>
    if b.downstream then scheduleAllBuilds env c baseRepo number rest
    else
      match scheduleJenkinsBuild env c baseRepo number b with
      | (ev, Except.error _) => (ev, some 500)
      | (ev, Except.ok _) =>
        match scheduleAllBuilds env c baseRepo number rest with
        | (ev2, res2) => (ev ++ ev2, res2)

/-- startJenkinsBuilds from pull_request.go: cancel all existing builds first; on any
cancellation failure respond 500 and schedule nothing, otherwise schedule every
non-downstream build definition. -/
def startJenkinsBuilds (env : Env) (c : Config) (baseRepo : String) (number : Int) :
    List Event × Option Nat :=
  match getBuildsWhileCancellingExisting env c baseRepo number with
  | (ev, Except.error _) => (ev, some 500)
  | (ev, Except.ok builds) =>
    match scheduleAllBuilds env c baseRepo number builds with
    | (ev2, res2) => (ev ++ ev2, res2)

/-- The loop of isValidMember over the configured teams, returning the list of teams
actually queried and the verdict: a transport failure aborts with `false`, an HTTP 200
short-circuits with `true`, any other code moves on to the next team. -/
def isValidMemberLoop (env : Env) (author : String) :
    List String → List String × Bool
  | [] => ([], false)
  | t :: rest =>
    match env.teamStatus t author with
    | Except.error _ => ([t], false)
    | Except.ok code =>
      if code == 200 then ([t], true)
      else
        let r := isValidMemberLoop env author rest
        (t :: r.1, r.2)

/-- isValidMember from pull_request.go: an empty team allowlist authorizes everyone;
otherwise the teams are queried in order for the author's membership. -/
def isValidMember (env : Env) (c : Config) (author : String) : List String × Bool :=
  if c.teams.isEmpty then ([], true)
  else isValidMemberLoop env author c.teams

/-- GitHub.SuccessStatus from the github package sources: one SetStatus write with
state `success`. -/
def SuccessStatus (env : Env) (repo sha context : String) :
    List Event × Except String Unit :=
  ([Event.statusWrite repo context sha "success"], env.setStatus repo context sha "success")

/-- GitHub.FailureStatus from the github package sources: one SetStatus write with
state `failure`. -/
def FailureStatus (env : Env) (repo sha context : String) :
    List Event × Except String Unit :=
  ([Event.statusWrite repo context sha "failure"], env.setStatus repo context sha "failure")

/-- Modelled from the spec: AddUniqueComment of the github package is not among the
sources here (only its caller is); per the spec the explanatory comment is posted
unless an equivalent comment already exists under a matching comment-kind marker,
which the sources' AlreadyCommented realizes as a marker-in-body scan of the PR's
comments. -/
def AddUniqueComment (env : Env) (content : List CommentRec) (comment commentType : String) :
    List Event × Except String Unit :=
  if content.any (fun cm => strContains cm.body commentType) then
    ([], Except.ok ())
  else
    ([Event.commentAdd comment], env.addComment comment)

/-- The explanatory comment checkIsAuthorizedPRAuthor posts for an unauthorized author. -/
def unauthorizedComment (authorLogin : String) : String :=
  "Thanks for your submission, " ++ authorLogin ++
    ". Tests can only be initiated by an authorized member of the Mantid team. Please contact us for assistance."

/-- The owner/name rendering of the hook's base repo, as built by githubHandler. -/
def baseRepoOf (hook : PRHook) : String :=
  hook.baseOwner ++ "/" ++ hook.baseName

/-- checkIsAuthorizedPRAuthor from pull_request.go: an authorized author passes with
no side effects; for an unauthorized author a unique explanatory comment is added
(aborting on failure) and a failure status is written under the fixed
`mantid/unauthorized` context, and the verdict is `false`. -/
def checkIsAuthorizedPRAuthor (env : Env) (c : Config) (hook : PRHook)
    (content : List CommentRec) : List Event × Bool :=
  if (isValidMember env c hook.authorLogin).2 then ([], true)
  else
    match AddUniqueComment env content (unauthorizedComment hook.authorLogin) "Unapproved user" with
    | (ev1, Except.error _) => (ev1, false)
    | (ev1, Except.ok _) =>
      (ev1 ++ (FailureStatus env (baseRepoOf hook) hook.headSha "mantid/unauthorized").1, false)

/-- The retry loop of githubHandler around LoadPullRequest: up to `totalAttempts = 5`
retries after a failed attempt whose cause is exactly "Not Found", sleeping `delay`
seconds before each retry and doubling it; the returned list holds the delays slept.
The fuel is an upper bound on loop iterations (7 ≥ the 6 attempts reachable with
attempt starting at 1 and the `attempt ≤ 5` guard) and is never exhausted. -/
def prLoadGo (load : Nat → Except String (List CommentRec)) :
    Nat → Nat → Nat → List Nat × Except String (List CommentRec)
  | 0, _, _ => ([], Except.error "out of fuel")
  | fuel + 1, attempt, delay =>
    match load attempt with
    | Except.ok v => ([], Except.ok v)
    | Except.error e =>
      if attempt ≤ 5 && e == "Not Found" then
        match prLoadGo load fuel (attempt + 1) (delay * 2) with
        | (ds, res) => (delay :: ds, res)
      else ([], Except.error e)

/-- The PR-load step of githubHandler: first attempt is numbered 1 with a one-second
starting delay. -/
def prLoad (load : Nat → Except String (List CommentRec)) :
    List Nat × Except String (List CommentRec) :=
  prLoadGo load 7 1 1

/-- What one run of githubHandler did: side-effect events, seconds slept in the
retry loop, and the HTTP response code explicitly written (the first write wins). -/
structure HandlerResult where
  events : List Event
  sleeps : List Nat
  response : Option Nat
  deriving DecidableEq, Repr

/-- githubHandler from pull_request.go (the pull_request branch): ignore actions
outside opened/reopened/synchronize, load the PR content with the bounded retry
loop (failure: 500), check mergeability (failure: 500, not mergeable: 200), then
either reject an unauthorized author while still cancelling existing builds (200)
or run the cancel-then-schedule sequence. -/
def githubHandler (env : Env) (c : Config) (hook : PRHook) : HandlerResult :=
  if !(hook.action == "opened" || hook.action == "reopened" || hook.action == "synchronize") then
    ⟨[], [], none⟩
  else
    match prLoad env.loadContent with
    | (ds, Except.error _) => ⟨[], ds, some 500⟩
    | (ds, Except.ok content) =>
      match env.mergeable with
      | Except.error _ => ⟨[], ds, some 500⟩
      | Except.ok false => ⟨[], ds, some 200⟩
      | Except.ok true =>
        match checkIsAuthorizedPRAuthor env c hook content with
        | (authEv, true) =>
          match startJenkinsBuilds env c (baseRepoOf hook) hook.number with
          | (ev, code) => ⟨authEv ++ ev, ds, code⟩
        | (authEv, false) =>
          ⟨authEv ++ (getBuildsWhileCancellingExisting env c (baseRepoOf hook) hook.number).1,
            ds, some 200⟩

/-- Config.scheduleJenkinsDownstreamBuild from utils.go: one pending status write for
the triggering sha, then one buildWithParameters post carrying that sha and head repo
verbatim (no commit re-resolution). -/
def scheduleJenkinsDownstreamBuild (env : Env) (baseRepo headRepo : String)
    (number : Int) (build : Build) (sha : String) : List Event × Except String Unit :=
  match updateGithubStatus env baseRepo build.context sha "pending" with
  | (ev1, Except.error e) => (ev1, Except.error e)
  | (ev1, Except.ok _) =>
    match BuildWithParameters env build.job (downstreamParams baseRepo headRepo sha number) with
    | (ev2, res2) => (ev1 ++ ev2, res2)

/-- The downstream loop of jenkinsHandler: for each configured downstream context,
resolve its definition by (context, base repo) — a lookup failure stops the handler —
skip it when the notification's base branch is excluded, otherwise schedule it with
the triggering sha; a scheduling failure writes a 500 response but the loop goes on. -/
def downstreamLoop (env : Env) (c : Config) (j : JenkinsNotification) :
    List String → List Event × Option Nat
  | [] => ([], none)
  | ctx :: rest =>
    match getBuildByContextAndRepo c ctx j.gitBaseRepo with
    | Except.error _ => ([], none)
    | Except.ok db =>
      if db.excludeTargets.contains j.baseBranch then
        downstreamLoop env c j rest
      else
        match scheduleJenkinsDownstreamBuild env db.repo j.gitHeadRepo (atoiD j.prParam) db j.gitSha,
          downstreamLoop env c j rest with
        | (ev, res), (ev2, res2) =>
          (ev ++ ev2, match res with | Except.error _ => some 500 | Except.ok _ => res2)

/-- jenkinsHandler from pull_request.go: drop phases other than STARTED/COMPLETED,
map phase+status to a commit-status state (an unrecognized COMPLETED status drops
the event), resolve the build by job name, write the mapped status (a write failure
is only logged), and on success run the downstream loop. -/
def jenkinsHandler (env : Env) (c : Config) (j : JenkinsNotification) :
    List Event × Option Nat :=
  if !(j.phase == "STARTED" || j.phase == "COMPLETED") then ([], none)
  else
    let stateOpt : Option String :=
      if j.phase == "STARTED" then some "pending"
      else if j.status == "SUCCESS" then some "success"
      else if j.status == "FAILURE" then some "failure"
      else if j.status == "UNSTABLE" then some "failure"
      else if j.status == "ABORTED" then some "error"
      else none
    match stateOpt with
    | none => ([], none)
    | some state =>
      match getBuildByJob c j.name with
      | Except.error _ => ([], none)
      | Except.ok build =>
        let ev1 := (updateGithubStatus env j.gitBaseRepo build.context j.gitSha state).1
        if state == "success" then
          match downstreamLoop env c j build.downstreamBuilds with
          | (ev2, code) => (ev1 ++ ev2, code)
        else (ev1, none)

/-- The owner/name rendering of the review hook's repository. -/
def reviewRepoOf (hook : ReviewHook) : String :=
  hook.repoOwner ++ "/" ++ hook.repoName

/-- setValidationCheckPassed from pull_request.go: re-fetch the PR (a failure only
logs) and set the `mantid/unauthorized` status on its current head sha to success
(a write failure only logs). -/
def setValidationCheckPassed (env : Env) (hook : ReviewHook) : List Event :=
  match env.reviewPRFetch with
  | Except.error _ => []
  | Except.ok pr => (SuccessStatus env (reviewRepoOf hook) pr.headSha "mantid/unauthorized").1

/-- handlePullRequestReview from pull_request.go: only submitted reviews whose body,
after trimming surrounding whitespace, equals "rerun ci" case-insensitively are
actionable; an authorized reviewer clears the unauthorized status and re-runs the
full cancel-then-schedule sequence (responding 200, or 500 from a scheduling
failure since the first header write wins), an unauthorized reviewer gets 403 with
no side effects. -/
def handlePullRequestReview (env : Env) (c : Config) (hook : ReviewHook) :
    List Event × Option Nat :=
  if !(hook.action == "submitted") then ([], some 200)
  else if equalFold (trimSpace hook.reviewBody) "rerun ci" then
    if (isValidMember env c hook.reviewerLogin).2 then
      match startJenkinsBuilds env c (reviewRepoOf hook) hook.prNumber with
      | (ev, code) =>
        (setValidationCheckPassed env hook ++ ev,
          match code with | some n => some n | none => some 200)
    else ([], some 403)
  else ([], some 200)

/-! Concrete fixtures used by witnesses and counterexamples. -/

/-- A concrete pull request: number 7, head sha c3, head repo alice/repo, base main. -/
def prA : PRData := ⟨7, "c3", "alice", "repo", "main"⟩

/-- A concrete environment where every external call succeeds: PR 7 with commits
c1,c2,c3, c1 already statused under "ci", one active Jenkins instance 4 per job,
team b reports membership. -/
def baseEnv : Env where
  prFetch := Except.ok prA
  commitsFetch := Except.ok ["c1", "c2", "c3"]
  statuses := fun sha => if sha == "c1" then Except.ok ["ci"] else Except.ok []
  jobInstance := fun _ _ => Except.ok 4
  cancelHTTP := fun _ _ => 200
  buildHTTP := fun _ _ => 201
  setStatus := fun _ _ _ _ => Except.ok ()
  addComment := fun _ => Except.ok ()
  teamStatus := fun t _ => if t == "b" then Except.ok 200 else Except.ok 404
  loadContent := fun _ => Except.ok []
  mergeable := Except.ok true
  reviewPRFetch := Except.ok prA

/-- A one-build catalog for repo o/r under the `new` commit-selection policy. -/
def cfgNew : Config := ⟨[⟨"o/r", "job1", "ci", false, false, [], []⟩], "new", ["a", "b", "c"]⟩

/-- The same catalog under the `all` policy. -/
def cfgAll : Config := { cfgNew with buildCommits := "all" }

/-- The same catalog under the `last` policy. -/
def cfgLast : Config := { cfgNew with buildCommits := "last" }

/-- An environment whose Jenkins stop endpoint answers 201. -/
def cancel201Env : Env := { baseEnv with cancelHTTP := fun _ _ => 201 }

end Leeroy

namespace Leeroy

/-! Theorems. -/

/-- An event flagged as a cancellation is not a scheduling call. -/
theorem cancel_not_schedule (e : Event) (h : e.isCancel = true) : e.isSchedule = false := by
  cases e <;> simp_all [Event.isCancel, Event.isSchedule]

/-- C8 as stated is refuted: the CI system answering 201 to a stop call is reported
as a CancellationError by CancelJobInstance, not as success. -/
theorem c8_counterexample :
    ¬ ((exOk (CancelJobInstance cancel201Env "build-job" 3).2 = true) ↔
      (cancel201Env.cancelHTTP "build-job" 3 = 200 ∨ cancel201Env.cancelHTTP "build-job" 3 = 201)) := by
  decide

/-- C8 (amended): cancel reports success if and only if the CI system responds with
HTTP status 200; any other response code, 201 included, yields a CancellationError. -/
theorem c8_cancel_success_iff_200 (env : Env) (job : String) (jobId : Nat) :
    exOk (CancelJobInstance env job jobId).2 = true ↔ env.cancelHTTP job jobId = 200 := by
  unfold CancelJobInstance
  by_cases h : env.cancelHTTP job jobId = 200 <;> simp [h, exOk]

/-- Resolution under policy `last` yields exactly the head sha. -/
theorem getShas_last (env : Env) (c : Config) (pr : PRData) (context : String) (number : Int)
    (hpr : env.prFetch = Except.ok pr) (h : c.buildCommits = "last") :
    getShas env c context number = Except.ok ([pr.headSha], pr) := by
  simp [getShas, hpr, h]

/-- Resolution under policy `all` yields every commit sha in PR order. -/
theorem getShas_all (env : Env) (c : Config) (pr : PRData) (commits : List String)
    (context : String) (number : Int)
    (hpr : env.prFetch = Except.ok pr) (hc : env.commitsFetch = Except.ok commits)
    (h : c.buildCommits = "all") :
    getShas env c context number = Except.ok (commits, pr) := by
  simp [getShas, hpr, hc, h]

/-- Resolution under policy `new` filters out the shas that already carry a status
under the target context. -/
theorem getShas_new (env : Env) (c : Config) (pr : PRData) (commits : List String)
    (context : String) (number : Int)
    (hpr : env.prFetch = Except.ok pr) (hc : env.commitsFetch = Except.ok commits)
    (h : c.buildCommits = "new") :
    getShas env c context number =
      Except.ok (commits.filter (fun sha => !(hasStatus env sha context)), pr) := by
  simp [getShas, hpr, hc, h]

/-- C5: commit resolution returns the head sha alone under policy `last`, every
commit sha in PR order under `all`, and under `new` every commit sha in PR order
except those whose existing-status lookup reports the target context already
statused. -/
theorem c5_commit_selection (env : Env) (c : Config) (pr : PRData) (commits : List String)
    (context : String) (number : Int)
    (hpr : env.prFetch = Except.ok pr)
    (hc : env.commitsFetch = Except.ok commits) :
    (c.buildCommits = "last" → getShas env c context number = Except.ok ([pr.headSha], pr)) ∧
    (c.buildCommits = "all" → getShas env c context number = Except.ok (commits, pr)) ∧
    (c.buildCommits = "new" →
      getShas env c context number =
        Except.ok (commits.filter (fun sha => !(hasStatus env sha context)), pr)) :=
  ⟨getShas_last env c pr context number hpr,
    getShas_all env c pr commits context number hpr hc,
    getShas_new env c pr commits context number hpr hc⟩

/-- C5 witness at the spec's example: commits c1,c2,c3 with c1 already statused under
"ci" resolve to [c2,c3] under `new`, [c1,c2,c3] under `all`, and [c3] under `last`. -/
theorem c5_commit_selection_witness :
    (baseEnv.prFetch = Except.ok prA ∧ baseEnv.commitsFetch = Except.ok ["c1", "c2", "c3"]) ∧
    getShas baseEnv cfgNew "ci" 7 = Except.ok (["c2", "c3"], prA) ∧
    getShas baseEnv cfgAll "ci" 7 = Except.ok (["c1", "c2", "c3"], prA) ∧
    getShas baseEnv cfgLast "ci" 7 = Except.ok (["c3"], prA) := by
  refine ⟨⟨rfl, rfl⟩, ?_, ?_, ?_⟩
  · have h := (c5_commit_selection baseEnv cfgNew prA ["c1", "c2", "c3"] "ci" 7 rfl rfl).2.2 rfl
    rw [h]; decide
  · exact (c5_commit_selection baseEnv cfgAll prA ["c1", "c2", "c3"] "ci" 7 rfl rfl).2.1 rfl
  · exact (c5_commit_selection baseEnv cfgLast prA ["c1", "c2", "c3"] "ci" 7 rfl rfl).1 rfl

/-- C10: a failing per-commit status lookup is swallowed: the commit is reported as
having no status, and under policy `new` it is kept in the resolved sequence, so
resolution still succeeds. -/
theorem c10_status_lookup_error_swallowed (env : Env) (c : Config) (pr : PRData)
    (commits : List String) (sha context e : String) (number : Int)
    (hpr : env.prFetch = Except.ok pr)
    (hc : env.commitsFetch = Except.ok commits)
    (hpol : c.buildCommits = "new")
    (herr : env.statuses sha = Except.error e)
    (hmem : sha ∈ commits) :
    hasStatus env sha context = false ∧
    ∃ shas, getShas env c context number = Except.ok (shas, pr) ∧ sha ∈ shas := by
  have hh : hasStatus env sha context = false := by simp [hasStatus, herr]
  refine ⟨hh, commits.filter (fun s => !(hasStatus env s context)), ?_, ?_⟩
  · exact getShas_new env c pr commits context number hpr hc hpol
  · simp [List.mem_filter, hmem, hh]

/-- An environment whose status lookup fails for commit c2. -/
def statusErrEnv : Env :=
  { baseEnv with statuses := fun sha => if sha == "c2" then Except.error "boom" else Except.ok [] }

/-- C10 witness: with the c2 lookup failing, c2 is still resolved under `new`. -/
theorem c10_witness :
    (statusErrEnv.prFetch = Except.ok prA ∧ statusErrEnv.commitsFetch = Except.ok ["c1", "c2", "c3"] ∧
      cfgNew.buildCommits = "new" ∧ statusErrEnv.statuses "c2" = Except.error "boom" ∧
      "c2" ∈ ["c1", "c2", "c3"]) ∧
    (hasStatus statusErrEnv "c2" "ci" = false ∧
      ∃ shas, getShas statusErrEnv cfgNew "ci" 7 = Except.ok (shas, prA) ∧ "c2" ∈ shas) := by
  refine ⟨⟨rfl, rfl, rfl, rfl, by decide⟩, ?_⟩
  exact c10_status_lookup_error_swallowed statusErrEnv cfgNew prA ["c1", "c2", "c3"] "c2" "ci"
    "boom" 7 rfl rfl rfl rfl (by decide)

/-- True when a membership query outcome is a successful (HTTP 200) response. -/
def is200 (r : Except String Nat) : Bool :=
  match r with
  | Except.ok code => code == 200
  | Except.error _ => false

/-- The verdict and query trace of the team loop, assuming no transport failures:
the verdict is whether some team reports membership, and the teams queried are the
non-member hits up to and including the first member hit. -/
theorem isValidMemberLoop_spec (env : Env) (author : String) (ts : List String)
    (hok : ts.all (fun t => exOk (env.teamStatus t author)) = true) :
    ((isValidMemberLoop env author ts).2 = ts.any (fun t => is200 (env.teamStatus t author))) ∧
    ((isValidMemberLoop env author ts).1 =
      ts.takeWhile (fun t => !(is200 (env.teamStatus t author))) ++
        (ts.drop (ts.takeWhile (fun t => !(is200 (env.teamStatus t author)))).length).take 1) := by
  induction ts with
  | nil => simp [isValidMemberLoop]
  | cons t rest ih =>
    have hokt : exOk (env.teamStatus t author) = true := by
      have := hok
      simp [List.all_cons] at this
      exact this.1
    have hokr : rest.all (fun t => exOk (env.teamStatus t author)) = true := by
      have := hok
      simp [List.all_cons] at this
      simpa using this.2
    cases he : env.teamStatus t author with
    | error e => rw [he] at hokt; simp [exOk] at hokt
    | ok code =>
      by_cases hc : code = 200
      · subst hc
        simp [isValidMemberLoop, he, is200]
      · have h200 : (code == 200) = false := by simp [hc]
        have hih := ih hokr
        have pt : (!is200 (env.teamStatus t author)) = true := by simp [is200, he, h200]
        have hstep : isValidMemberLoop env author (t :: rest) =
            (t :: (isValidMemberLoop env author rest).1, (isValidMemberLoop env author rest).2) := by
          simp [isValidMemberLoop, he, h200]
        constructor
        · rw [hstep, hih.1]
          simp [List.any_cons, is200, he, h200]
        · rw [hstep, hih.2]
          simp [List.takeWhile_cons, pt]

/-- C6: with an empty allowlist every author is authorized; with a non-empty
allowlist and no transport failures, the author is authorized iff some team of the
allowlist reports membership (HTTP 200), the teams being queried in order and the
loop stopping at the first membership hit. -/
theorem c6_authorization (env : Env) (c : Config) (author : String)
    (hok : c.teams.all (fun t => exOk (env.teamStatus t author)) = true) :
    ((isValidMember env c author).2 = true ↔
      (c.teams = [] ∨ ∃ t ∈ c.teams, env.teamStatus t author = Except.ok 200)) ∧
    (c.teams ≠ [] →
      (isValidMember env c author).1 =
        c.teams.takeWhile (fun t => !(is200 (env.teamStatus t author))) ++
          (c.teams.drop
            (c.teams.takeWhile (fun t => !(is200 (env.teamStatus t author)))).length).take 1) := by
  have hmem : ∀ t, is200 (env.teamStatus t author) = true ↔
      env.teamStatus t author = Except.ok 200 := by
    intro t
    cases h : env.teamStatus t author <;> simp [is200]
  by_cases hemp : c.teams.isEmpty
  · have h0 : c.teams = [] := by simpa using hemp
    simp [isValidMember, hemp, h0]
  · have hne2 : c.teams.isEmpty = false := by simpa using hemp
    have hne : c.teams ≠ [] := by
      intro h0
      rw [h0] at hne2
      simp at hne2
    have hspec := isValidMemberLoop_spec env author c.teams hok
    have hval : isValidMember env c author = isValidMemberLoop env author c.teams := by
      simp [isValidMember, hne2]
    constructor
    · rw [hval, hspec.1]
      simp only [List.any_eq_true]
      constructor
      · rintro ⟨x, hx, h200⟩
        exact Or.inr ⟨x, hx, (hmem x).mp h200⟩
      · rintro (habs | ⟨x, hx, h200⟩)
        · exact absurd habs hne
        · exact ⟨x, hx, (hmem x).mpr h200⟩
    · intro _
      rw [hval]
      exact hspec.2

/-- C6 witness: teams a,b,c where only b reports membership: the author is
authorized and exactly a then b are queried. -/
theorem c6_witness :
    (cfgNew.teams.all (fun t => exOk (baseEnv.teamStatus t "alice")) = true) ∧
    ((isValidMember baseEnv cfgNew "alice").2 = true ↔
      (cfgNew.teams = [] ∨ ∃ t ∈ cfgNew.teams, baseEnv.teamStatus t "alice" = Except.ok 200)) ∧
    (isValidMember baseEnv cfgNew "alice").1 = ["a", "b"] := by
  refine ⟨by decide, (c6_authorization baseEnv cfgNew "alice" (by decide)).1, ?_⟩
  have h := (c6_authorization baseEnv cfgNew "alice" (by decide)).2 (by decide)
  rw [h]; decide

/-- C9: a load failing with cause "Not Found" is retried with delays of 1, 2, 4, 8
and 16 seconds before giving up; a first failure with any other cause aborts at once
with no sleeping; a successful first attempt neither sleeps nor retries; and an
exhausted or non-transient load failure makes the handler answer 500 with no side
effects. -/
theorem c9_retry_policy (load : Nat → Except String (List CommentRec)) (env : Env) (c : Config)
    (hook : PRHook) :
    ((∀ i, load i = Except.error "Not Found") →
      prLoad load = ([1, 2, 4, 8, 16], Except.error "Not Found")) ∧
    (∀ e, load 1 = Except.error e → e ≠ "Not Found" → prLoad load = ([], Except.error e)) ∧
    (∀ v, load 1 = Except.ok v → prLoad load = ([], Except.ok v)) ∧
    ((hook.action == "opened" || hook.action == "reopened" || hook.action == "synchronize") = true →
      ∀ e, (prLoad env.loadContent).2 = Except.error e →
        githubHandler env c hook = ⟨[], (prLoad env.loadContent).1, some 500⟩) := by
  refine ⟨fun h => ?_, fun e h1 h2 => ?_, fun v h1 => ?_, fun ha e herr => ?_⟩
  · simp [prLoad, prLoadGo, h]
  · have hb : (e == "Not Found") = false := by simp [h2]
    simp [prLoad, prLoadGo, h1, hb]
  · simp [prLoad, prLoadGo, h1]
  · rcases hl : prLoad env.loadContent with ⟨ds, res⟩
    rw [hl] at herr
    simp only [] at herr
    subst herr
    simp [githubHandler, ha, hl]

/-- An environment whose PR-content load always fails with the transient cause. -/
def loadNotFoundEnv : Env := { baseEnv with loadContent := fun _ => Except.error "Not Found" }

/-- A triggering synchronize hook for repo o/r, PR 7, author alice. -/
def hookSync : PRHook := ⟨"synchronize", 7, "alice", "c3", "o", "r"⟩

/-- C9 witness: under an always-"Not Found" load the delays are exactly
[1,2,4,8,16] and the handler answers 500 having done nothing. -/
theorem c9_witness :
    (∀ i, loadNotFoundEnv.loadContent i = Except.error "Not Found") ∧
    prLoad loadNotFoundEnv.loadContent = ([1, 2, 4, 8, 16], Except.error "Not Found") ∧
    githubHandler loadNotFoundEnv cfgNew hookSync = ⟨[], [1, 2, 4, 8, 16], some 500⟩ := by
  have h1 := (c9_retry_policy loadNotFoundEnv.loadContent loadNotFoundEnv cfgNew hookSync).1
    (fun i => rfl)
  refine ⟨fun i => rfl, h1, ?_⟩
  have h4 := (c9_retry_policy loadNotFoundEnv.loadContent loadNotFoundEnv cfgNew hookSync).2.2.2
    (by decide) "Not Found" (by rw [h1])
  rw [h4, h1]

/-- C2: the CI notification mapping: STARTED writes pending whatever the status;
COMPLETED writes success for SUCCESS, failure for FAILURE and UNSTABLE, error for
ABORTED; an unrecognized COMPLETED status writes nothing and triggers nothing. -/
theorem c2_status_mapping (env : Env) (c : Config) (j : JenkinsNotification) (build : Build)
    (hb : getBuildByJob c j.name = Except.ok build)
    (hslash : repoHasSlash j.gitBaseRepo = true) :
    (j.phase = "STARTED" →
      jenkinsHandler env c j =
        ([Event.statusWrite j.gitBaseRepo build.context j.gitSha "pending"], none)) ∧
    (j.phase = "COMPLETED" → j.status = "SUCCESS" →
      ∃ rest, (jenkinsHandler env c j).1 =
        Event.statusWrite j.gitBaseRepo build.context j.gitSha "success" :: rest) ∧
    (j.phase = "COMPLETED" → j.status = "FAILURE" →
      jenkinsHandler env c j =
        ([Event.statusWrite j.gitBaseRepo build.context j.gitSha "failure"], none)) ∧
    (j.phase = "COMPLETED" → j.status = "UNSTABLE" →
      jenkinsHandler env c j =
        ([Event.statusWrite j.gitBaseRepo build.context j.gitSha "failure"], none)) ∧
    (j.phase = "COMPLETED" → j.status = "ABORTED" →
      jenkinsHandler env c j =
        ([Event.statusWrite j.gitBaseRepo build.context j.gitSha "error"], none)) ∧
    (∀ j2 : JenkinsNotification, j2.phase = "COMPLETED" →
      j2.status ∉ (["SUCCESS", "FAILURE", "UNSTABLE", "ABORTED"] : List String) →
      jenkinsHandler env c j2 = ([], none)) := by
  refine ⟨fun hp => ?_, fun hp hs => ?_, fun hp hs => ?_, fun hp hs => ?_, fun hp hs => ?_,
    fun j2 hp hs => ?_⟩
  · simp [jenkinsHandler, hp, hb, updateGithubStatus, hslash]
  · refine ⟨(downstreamLoop env c j build.downstreamBuilds).1, ?_⟩
    simp [jenkinsHandler, hp, hs, hb, updateGithubStatus, hslash]
  · simp [jenkinsHandler, hp, hs, hb, updateGithubStatus, hslash]
  · simp [jenkinsHandler, hp, hs, hb, updateGithubStatus, hslash]
  · simp [jenkinsHandler, hp, hs, hb, updateGithubStatus, hslash]
  · simp only [List.mem_cons, List.mem_singleton, not_or] at hs
    obtain ⟨h1, h2, h3, h4, h5⟩ := hs
    simp [jenkinsHandler, hp, h1, h2, h3, h4]

/-- A second catalog: main build with two downstream contexts, one downstream
definition excluding base branch main, the other excluding release. -/
def cfgDown : Config :=
  ⟨[⟨"o/r", "job1", "ci", false, false, ["dctx", "ectx"], []⟩,
    ⟨"o/r", "djob", "dctx", false, true, [], ["main"]⟩,
    ⟨"o/r", "ejob", "ectx", false, true, [], ["release"]⟩], "last", []⟩

/-- A COMPLETED/SUCCESS notification for job1 on base branch main. -/
def notifSuccess : JenkinsNotification :=
  ⟨"job1", 9, "u", "COMPLETED", "SUCCESS", "o/r", "alice/repo", "c3", "7", "main"⟩

/-- C2 witness: the mapping applied to concrete STARTED, COMPLETED/SUCCESS and
unrecognized notifications. -/
theorem c2_status_mapping_witness :
    (getBuildByJob cfgDown "job1" = Except.ok ⟨"o/r", "job1", "ci", false, false,
        ["dctx", "ectx"], []⟩ ∧
      repoHasSlash "o/r" = true) ∧
    jenkinsHandler baseEnv cfgDown { notifSuccess with phase := "STARTED" } =
      ([Event.statusWrite "o/r" "ci" "c3" "pending"], none) ∧
    (∃ rest, (jenkinsHandler baseEnv cfgDown notifSuccess).1 =
      Event.statusWrite "o/r" "ci" "c3" "success" :: rest) ∧
    jenkinsHandler baseEnv cfgDown { notifSuccess with status := "WEIRD" } = ([], none) := by
  refine ⟨⟨by decide, by decide⟩, ?_, ?_, ?_⟩
  · exact (c2_status_mapping baseEnv cfgDown { notifSuccess with phase := "STARTED" }
      ⟨"o/r", "job1", "ci", false, false, ["dctx", "ectx"], []⟩ (by decide) (by decide)).1 rfl
  · exact (c2_status_mapping baseEnv cfgDown notifSuccess
      ⟨"o/r", "job1", "ci", false, false, ["dctx", "ectx"], []⟩ (by decide) (by decide)).2.1 rfl rfl
  · exact (c2_status_mapping baseEnv cfgDown notifSuccess
      ⟨"o/r", "job1", "ci", false, false, ["dctx", "ectx"], []⟩ (by decide) (by decide)).2.2.2.2.2
      { notifSuccess with status := "WEIRD" } rfl (by decide)

/-- The downstream loop's trace: with every context resolvable, every resolved repo
well-formed and status writes succeeding, each context contributes nothing when its
definition excludes the notification's base branch, and otherwise exactly one
pending write and one schedule call carrying the triggering sha and head repo. -/
theorem downstreamLoop_events (env : Env) (c : Config) (j : JenkinsNotification)
    (ctxs : List String)
    (hres : ctxs.all (fun ctx =>
      match getBuildByContextAndRepo c ctx j.gitBaseRepo with
      | Except.ok db => repoHasSlash db.repo
      | Except.error _ => false) = true)
    (hset : ∀ r ctx sha st, env.setStatus r ctx sha st = Except.ok ()) :
    (downstreamLoop env c j ctxs).1 =
      (ctxs.map (fun ctx =>
        match getBuildByContextAndRepo c ctx j.gitBaseRepo with
        | Except.error _ => []
        | Except.ok db =>
          if db.excludeTargets.contains j.baseBranch then []
          else [Event.statusWrite db.repo db.context j.gitSha "pending",
                Event.scheduleCall db.job
                  (downstreamParams db.repo j.gitHeadRepo j.gitSha (atoiD j.prParam))])).flatten := by
  induction ctxs with
  | nil => simp [downstreamLoop]
  | cons ctx rest ih =>
    have hres1 : (match getBuildByContextAndRepo c ctx j.gitBaseRepo with
        | Except.ok db => repoHasSlash db.repo
        | Except.error _ => false) = true := by
      have := hres
      simp [List.all_cons] at this
      exact this.1
    have hresr : rest.all (fun ctx =>
        match getBuildByContextAndRepo c ctx j.gitBaseRepo with
        | Except.ok db => repoHasSlash db.repo
        | Except.error _ => false) = true := by
      have := hres
      simp [List.all_cons] at this
      simpa using this.2
    cases hdb : getBuildByContextAndRepo c ctx j.gitBaseRepo with
    | error e => rw [hdb] at hres1; simp at hres1
    | ok db =>
      rw [hdb] at hres1
      simp only [] at hres1
      by_cases hex : j.baseBranch ∈ db.excludeTargets
      · simp [downstreamLoop, hdb, hex, ih hresr]
      · simp [downstreamLoop, hdb, hex, ih hresr,
          scheduleJenkinsDownstreamBuild, updateGithubStatus, hres1, hset,
          BuildWithParameters]

/-- C4: on a COMPLETED/SUCCESS notification, each configured downstream context's
definition is never scheduled when the base branch sits in its exclusion set, and is
otherwise scheduled exactly once, with exactly the triggering sha and head repo in
its parameters and with no commit re-resolution. -/
theorem c4_downstream_triggering (env : Env) (c : Config) (j : JenkinsNotification)
    (build : Build)
    (hp : j.phase = "COMPLETED") (hs : j.status = "SUCCESS")
    (hb : getBuildByJob c j.name = Except.ok build)
    (hslash : repoHasSlash j.gitBaseRepo = true)
    (hres : build.downstreamBuilds.all (fun ctx =>
      match getBuildByContextAndRepo c ctx j.gitBaseRepo with
      | Except.ok db => repoHasSlash db.repo
      | Except.error _ => false) = true)
    (hset : ∀ r ctx sha st, env.setStatus r ctx sha st = Except.ok ()) :
    (jenkinsHandler env c j).1 =
      Event.statusWrite j.gitBaseRepo build.context j.gitSha "success" ::
        (build.downstreamBuilds.map (fun ctx =>
          match getBuildByContextAndRepo c ctx j.gitBaseRepo with
          | Except.error _ => []
          | Except.ok db =>
            if db.excludeTargets.contains j.baseBranch then []
            else [Event.statusWrite db.repo db.context j.gitSha "pending",
                  Event.scheduleCall db.job
                    (downstreamParams db.repo j.gitHeadRepo j.gitSha (atoiD j.prParam))])).flatten := by
  have hd := downstreamLoop_events env c j build.downstreamBuilds hres hset
  simp [jenkinsHandler, hp, hs, hb, updateGithubStatus, hslash, hd]

/-- C4 witness: with base branch main, the dctx downstream (excluding main) is
skipped and the ectx downstream is scheduled once with the triggering sha c3 and
head repo alice/repo. -/
theorem c4_downstream_triggering_witness :
    (notifSuccess.phase = "COMPLETED" ∧ notifSuccess.status = "SUCCESS" ∧
      getBuildByJob cfgDown "job1" = Except.ok ⟨"o/r", "job1", "ci", false, false,
        ["dctx", "ectx"], []⟩ ∧
      repoHasSlash "o/r" = true) ∧
    (jenkinsHandler baseEnv cfgDown notifSuccess).1 =
      [Event.statusWrite "o/r" "ci" "c3" "success",
        Event.statusWrite "o/r" "ectx" "c3" "pending",
        Event.scheduleCall "ejob"
          "GIT_BASE_REPO=o/r&GIT_HEAD_REPO=alice/repo&GIT_SHA1=c3&GITHUB_URL=https://github.com/o/r/pull/7&PR=7"] := by
  refine ⟨⟨rfl, rfl, by decide, by decide⟩, ?_⟩
  have h := c4_downstream_triggering baseEnv cfgDown notifSuccess
    ⟨"o/r", "job1", "ci", false, false, ["dctx", "ectx"], []⟩ rfl rfl (by decide) (by decide)
    (by decide) (fun r ctx sha st => rfl)
  rw [h]
  decide

/-- A cancellation event is neither a schedule call, nor a comment, nor an
unauthorized-failure status write. -/
theorem isCancel_elim (e : Event) (h : e.isCancel = true) :
    e.isSchedule = false ∧ e.isComment = false ∧ e.isUnauthorizedFailure = false := by
  cases e <;> simp_all [Event.isCancel, Event.isSchedule, Event.isComment,
    Event.isUnauthorizedFailure]

/-- The trace of one cancelJenkinsBuild run is empty or a single stop call for the
build's job. -/
theorem cancelJenkinsBuild_events_shape (env : Env) (c : Config) (r : String) (n : Int)
    (b : Build) :
    (cancelJenkinsBuild env c r n b).1 = [] ∨
      ∃ k, (cancelJenkinsBuild env c r n b).1 = [Event.cancelCall b.job k] := by
  by_cases hs : repoHasSlash r = true
  · cases hg : getShas env c b.context n with
    | error e => simp [cancelJenkinsBuild, hs, hg]
    | ok sp =>
      obtain ⟨shas, pr⟩ := sp
      cases hj : env.jobInstance b.job pr.number with
      | error e => simp [cancelJenkinsBuild, hs, hg, hj]
      | ok jobId =>
        by_cases h0 : jobId = 0
        · subst h0
          simp [cancelJenkinsBuild, hs, hg, hj]
        · rcases hC : CancelJobInstance env b.job jobId with ⟨ev, res⟩
          have hev : ev = [Event.cancelCall b.job jobId] := by
            have h1 := congrArg Prod.fst hC
            simp [CancelJobInstance] at h1
            exact h1.symm
          refine Or.inr ⟨jobId, ?_⟩
          cases res <;> simp [cancelJenkinsBuild, hs, hg, hj, h0, hC, hev]
  · have hs2 : repoHasSlash r = false := by simpa using hs
    simp [cancelJenkinsBuild, hs2]

/-- Every event of one cancelJenkinsBuild run is a stop call. -/
theorem cancelJenkinsBuild_events_cancel (env : Env) (c : Config) (r : String) (n : Int)
    (b : Build) : ∀ e ∈ (cancelJenkinsBuild env c r n b).1, e.isCancel = true := by
  intro e he
  rcases cancelJenkinsBuild_events_shape env c r n b with h | ⟨k, h⟩ <;> rw [h] at he
  · simp at he
  · simp at he
    rw [he]
    rfl

/-- Every event of the cancellation loop is a stop call. -/
theorem cancelAll_events_cancel (env : Env) (c : Config) (r : String) (n : Int)
    (builds : List Build) : ∀ e ∈ (cancelAll env c r n builds).1, e.isCancel = true := by
  induction builds with
  | nil => intro e he; simp [cancelAll] at he
  | cons b rest ih =>
    intro e he
    rcases hc : cancelJenkinsBuild env c r n b with ⟨ev, res⟩
    have hev : ∀ x ∈ ev, Event.isCancel x = true := by
      intro x hx
      apply cancelJenkinsBuild_events_cancel env c r n b
      rw [hc]
      exact hx
    cases res with
    | error e2 =>
      simp only [cancelAll, hc] at he
      exact hev e he
    | ok u =>
      rcases hrest : cancelAll env c r n rest with ⟨ev2, res2⟩
      simp only [cancelAll, hc, hrest, List.mem_append] at he
      rcases he with he | he
      · exact hev e he
      · apply ih
        rw [hrest]
        exact he

/-- Every event of getBuildsWhileCancellingExisting is a stop call. -/
theorem gw_events_cancel (env : Env) (c : Config) (r : String) (n : Int) :
    ∀ e ∈ (getBuildsWhileCancellingExisting env c r n).1, e.isCancel = true := by
  intro e he
  cases hb : getBuilds c r false with
  | error e2 => simp [getBuildsWhileCancellingExisting, hb] at he
  | ok builds =>
    rcases hca : cancelAll env c r n builds with ⟨ev, res⟩
    have hev : ∀ x ∈ ev, Event.isCancel x = true := by
      intro x hx
      apply cancelAll_events_cancel env c r n builds
      rw [hca]
      exact hx
    cases res with
    | error e2 =>
      simp only [getBuildsWhileCancellingExisting, hb, hca] at he
      exact hev e he
    | ok u =>
      simp only [getBuildsWhileCancellingExisting, hb, hca] at he
      exact hev e he

/-- Every event of one updateGithubStatus run is a status write. -/
theorem updateGithubStatus_events_shape (env : Env) (rn ctx sha st : String) :
    (updateGithubStatus env rn ctx sha st).1 = [] ∨
      (updateGithubStatus env rn ctx sha st).1 = [Event.statusWrite rn ctx sha st] := by
  unfold updateGithubStatus
  split
  · exact Or.inl rfl
  · exact Or.inr rfl

/-- No event of the per-sha scheduling loop is a stop call. -/
theorem scheduleShasLoop_no_cancel (env : Env) (r : String) (b : Build) (pr : PRData)
    (shas : List String) :
    ∀ e ∈ (scheduleShasLoop env r b pr shas).1, e.isCancel = false := by
  induction shas with
  | nil => intro e he; simp [scheduleShasLoop] at he
  | cons sha rest ih =>
    intro e he
    rcases hu : updateGithubStatus env r b.context sha "pending" with ⟨ev1, res1⟩
    have hupd : ∀ x ∈ ev1, Event.isCancel x = false := by
      intro x hx
      have hx1 : x ∈ (updateGithubStatus env r b.context sha "pending").1 := by
        rw [hu]; exact hx
      rcases updateGithubStatus_events_shape env r b.context sha "pending" with h | h <;>
        rw [h] at hx1
      · simp at hx1
      · simp at hx1
        rw [hx1]
        rfl
    cases res1 with
    | error e2 =>
      simp only [scheduleShasLoop, hu] at he
      exact hupd e he
    | ok u =>
      rcases hb : BuildWithParameters env b.job
          (buildParams r (headRepoOf pr) sha pr.number pr.baseRef) with ⟨ev2, res2⟩
      have hev2 : ev2 = [Event.scheduleCall b.job
          (buildParams r (headRepoOf pr) sha pr.number pr.baseRef)] := by
        have h1 := congrArg Prod.fst hb
        simp [BuildWithParameters] at h1
        exact h1.symm
      cases res2 with
      | error e2 =>
        simp only [scheduleShasLoop, hu, hb, List.mem_append] at he
        rcases he with he | he
        · exact hupd e he
        · rw [hev2] at he
          simp at he
          rw [he]
          rfl
      | ok u2 =>
        rcases hrest : scheduleShasLoop env r b pr rest with ⟨ev3, res3⟩
        simp only [scheduleShasLoop, hu, hb, hrest, List.mem_append] at he
        rcases he with (he | he) | he
        · exact hupd e he
        · rw [hev2] at he
          simp at he
          rw [he]
          rfl
        · apply ih
          rw [hrest]
          exact he

/-- No event of scheduleJenkinsBuild is a stop call. -/
theorem scheduleJenkinsBuild_no_cancel (env : Env) (c : Config) (r : String) (n : Int)
    (b : Build) : ∀ e ∈ (scheduleJenkinsBuild env c r n b).1, e.isCancel = false := by
  intro e he
  by_cases hs : repoHasSlash r = true
  · cases hg : getShas env c b.context n with
    | error e2 => simp [scheduleJenkinsBuild, hs, hg] at he
    | ok sp =>
      obtain ⟨shas, pr⟩ := sp
      simp only [scheduleJenkinsBuild, hs, Bool.not_true, Bool.false_eq_true, if_false, hg] at he
      exact scheduleShasLoop_no_cancel env r b pr shas e he
  · have hs2 : repoHasSlash r = false := by simpa using hs
    simp [scheduleJenkinsBuild, hs2] at he

/-- No event of the build-scheduling loop is a stop call. -/
theorem scheduleAllBuilds_no_cancel (env : Env) (c : Config) (r : String) (n : Int)
    (builds : List Build) :
    ∀ e ∈ (scheduleAllBuilds env c r n builds).1, e.isCancel = false := by
  induction builds with
  | nil => intro e he; simp [scheduleAllBuilds] at he
  | cons b rest ih =>
    intro e he
    by_cases hd : b.downstream = true
    · simp only [scheduleAllBuilds, hd, if_true] at he
      exact ih e he
    · have hd2 : b.downstream = false := by simpa using hd
      rcases hsb : scheduleJenkinsBuild env c r n b with ⟨ev, res⟩
      have hev : ∀ x ∈ ev, Event.isCancel x = false := by
        intro x hx
        apply scheduleJenkinsBuild_no_cancel env c r n b
        rw [hsb]
        exact hx
      cases res with
      | error e2 =>
        simp only [scheduleAllBuilds, hd2, Bool.false_eq_true, if_false, hsb] at he
        exact hev e he
      | ok u =>
        rcases hrest : scheduleAllBuilds env c r n rest with ⟨ev2, res2⟩
        simp only [scheduleAllBuilds, hd2, Bool.false_eq_true, if_false, hsb, hrest,
          List.mem_append] at he
        rcases he with he | he
        · exact hev e he
        · apply ih
          rw [hrest]
          exact he

/-- The pull request carried through getShas is the one the PR fetch returned. -/
theorem getShas_pr (env : Env) (c : Config) (context : String) (n : Int) (shas : List String)
    (pr2 pr : PRData) (h : getShas env c context n = Except.ok (shas, pr2))
    (hpr : env.prFetch = Except.ok pr) : pr2 = pr := by
  unfold getShas at h
  rw [hpr] at h
  by_cases hp : (c.buildCommits == "all" || c.buildCommits == "new") = true
  · simp only [hp, if_true] at h
    cases hc : env.commitsFetch with
    | error e => rw [hc] at h; simp at h
    | ok commits =>
      rw [hc] at h
      simp at h
      exact h.2.symm
  · have hp2 : (c.buildCommits == "all" || c.buildCommits == "new") = false := by
      simpa using hp
    simp only [hp2, Bool.false_eq_true, if_false] at h
    simp at h
    exact h.2.symm

/-- A successful cancelJenkinsBuild run for a build whose PR has an active instance
k issued the stop call for (job, k). -/
theorem cancelJenkinsBuild_ok_call (env : Env) (c : Config) (r : String) (n : Int) (b : Build)
    (pr : PRData) (k : Nat)
    (hpr : env.prFetch = Except.ok pr)
    (hj : env.jobInstance b.job pr.number = Except.ok k) (hk : k ≠ 0)
    (hok : (cancelJenkinsBuild env c r n b).2 = Except.ok ()) :
    Event.cancelCall b.job k ∈ (cancelJenkinsBuild env c r n b).1 := by
  by_cases hs : repoHasSlash r = true
  · cases hg : getShas env c b.context n with
    | error e => simp [cancelJenkinsBuild, hs, hg] at hok
    | ok sp =>
      obtain ⟨shas, pr2⟩ := sp
      have hpr2 : pr2 = pr := getShas_pr env c b.context n shas pr2 pr hg hpr
      subst hpr2
      rcases hC : CancelJobInstance env b.job k with ⟨ev, res⟩
      have hev : ev = [Event.cancelCall b.job k] := by
        have h1 := congrArg Prod.fst hC
        simp [CancelJobInstance] at h1
        exact h1.symm
      cases res with
      | error e2 => simp [cancelJenkinsBuild, hs, hg, hj, hk, hC] at hok
      | ok u => simp [cancelJenkinsBuild, hs, hg, hj, hk, hC, hev]
  · have hs2 : repoHasSlash r = false := by simpa using hs
    simp [cancelJenkinsBuild, hs2] at hok

/-- After a fully successful cancellation loop, every build of the list whose PR had
an active instance k got its stop call issued. -/
theorem cancelAll_ok_calls (env : Env) (c : Config) (r : String) (n : Int)
    (builds : List Build) (pr : PRData)
    (hpr : env.prFetch = Except.ok pr)
    (hok : (cancelAll env c r n builds).2 = Except.ok ()) :
    ∀ b ∈ builds, ∀ k, env.jobInstance b.job pr.number = Except.ok k → k ≠ 0 →
      Event.cancelCall b.job k ∈ (cancelAll env c r n builds).1 := by
  induction builds with
  | nil => intro b hb; simp at hb
  | cons b0 rest ih =>
    intro b hb k hj hk
    rcases hc : cancelJenkinsBuild env c r n b0 with ⟨ev, res⟩
    cases res with
    | error e2 =>
      simp only [cancelAll, hc] at hok
      exact absurd hok (by simp)
    | ok u =>
      cases u
      rcases hrest : cancelAll env c r n rest with ⟨ev2, res2⟩
      simp only [cancelAll, hc, hrest] at hok ⊢
      rcases List.mem_cons.mp hb with hb0 | hbr
      · subst hb0
        have hm := cancelJenkinsBuild_ok_call env c r n b pr k hpr hj hk (by rw [hc])
        rw [hc] at hm
        exact List.mem_append.mpr (Or.inl hm)
      · have hok2 : (cancelAll env c r n rest).2 = Except.ok () := by
          rw [hrest]; exact hok
        have hm := ih hok2 b hbr k hj hk
        rw [hrest] at hm
        exact List.mem_append.mpr (Or.inr hm)

/-- A successful per-sha scheduling loop posted a build for every sha in the list. -/
theorem scheduleShasLoop_ok_mem (env : Env) (r : String) (b : Build) (pr : PRData)
    (shas : List String)
    (hok : (scheduleShasLoop env r b pr shas).2 = Except.ok ()) :
    ∀ sha ∈ shas,
      Event.scheduleCall b.job (buildParams r (headRepoOf pr) sha pr.number pr.baseRef) ∈
        (scheduleShasLoop env r b pr shas).1 := by
  induction shas with
  | nil => intro sha h; simp at h
  | cons sha0 rest ih =>
    intro sha hsha
    rcases hu : updateGithubStatus env r b.context sha0 "pending" with ⟨ev1, res1⟩
    cases res1 with
    | error e2 =>
      simp only [scheduleShasLoop, hu] at hok
      exact absurd hok (by simp)
    | ok u =>
      cases u
      rcases hbp : BuildWithParameters env b.job
          (buildParams r (headRepoOf pr) sha0 pr.number pr.baseRef) with ⟨ev2, res2⟩
      cases res2 with
      | error e2 =>
        simp only [scheduleShasLoop, hu, hbp] at hok
        exact absurd hok (by simp)
      | ok u2 =>
        cases u2
        rcases hrest : scheduleShasLoop env r b pr rest with ⟨ev3, res3⟩
        have hev2 : ev2 = [Event.scheduleCall b.job
            (buildParams r (headRepoOf pr) sha0 pr.number pr.baseRef)] := by
          have h1 := congrArg Prod.fst hbp
          simp [BuildWithParameters] at h1
          exact h1.symm
        simp only [scheduleShasLoop, hu, hbp, hrest] at hok ⊢
        rcases List.mem_cons.mp hsha with h0 | hr
        · subst h0
          refine List.mem_append.mpr (Or.inl (List.mem_append.mpr (Or.inr ?_)))
          rw [hev2]
          exact List.mem_singleton.mpr rfl
        · have hok3 : (scheduleShasLoop env r b pr rest).2 = Except.ok () := by
            rw [hrest]; exact hok
          have hm := ih hok3 sha hr
          rw [hrest] at hm
          exact List.mem_append.mpr (Or.inr hm)

/-- A successful scheduleJenkinsBuild posted a build for every resolved sha. -/
theorem scheduleJenkinsBuild_ok_mem (env : Env) (c : Config) (r : String) (n : Int)
    (b : Build) (shas : List String) (pr2 : PRData)
    (hg : getShas env c b.context n = Except.ok (shas, pr2))
    (hok : (scheduleJenkinsBuild env c r n b).2 = Except.ok ()) :
    ∀ sha ∈ shas,
      Event.scheduleCall b.job (buildParams r (headRepoOf pr2) sha pr2.number pr2.baseRef) ∈
        (scheduleJenkinsBuild env c r n b).1 := by
  by_cases hs : repoHasSlash r = true
  · simp only [scheduleJenkinsBuild, hs, Bool.not_true, Bool.false_eq_true, if_false, hg]
      at hok ⊢
    exact scheduleShasLoop_ok_mem env r b pr2 shas hok
  · have hs2 : repoHasSlash r = false := by simpa using hs
    simp [scheduleJenkinsBuild, hs2] at hok

/-- A scheduling loop that ended without a 500 ran scheduleJenkinsBuild to success
for every non-downstream build in the list, and kept all its events. -/
theorem scheduleAllBuilds_none_mem (env : Env) (c : Config) (r : String) (n : Int)
    (builds : List Build)
    (hok : (scheduleAllBuilds env c r n builds).2 = none) :
    ∀ b ∈ builds, b.downstream = false →
      (scheduleJenkinsBuild env c r n b).2 = Except.ok () ∧
      ∀ e ∈ (scheduleJenkinsBuild env c r n b).1, e ∈ (scheduleAllBuilds env c r n builds).1 := by
  induction builds with
  | nil => intro b hb; simp at hb
  | cons b0 rest ih =>
    intro b hb hbd
    by_cases hd : b0.downstream = true
    · simp only [scheduleAllBuilds, hd, if_true] at hok ⊢
      rcases List.mem_cons.mp hb with h0 | hr
      · subst h0
        rw [hd] at hbd
        exact absurd hbd (by simp)
      · exact ih hok b hr hbd
    · have hd2 : b0.downstream = false := by simpa using hd
      rcases hsb : scheduleJenkinsBuild env c r n b0 with ⟨ev, res⟩
      cases res with
      | error e2 =>
        simp only [scheduleAllBuilds, hd2, Bool.false_eq_true, if_false, hsb] at hok
        exact absurd hok (by simp)
      | ok u =>
        cases u
        rcases hrest : scheduleAllBuilds env c r n rest with ⟨ev2, res2⟩
        simp only [scheduleAllBuilds, hd2, Bool.false_eq_true, if_false, hsb, hrest] at hok ⊢
        rcases List.mem_cons.mp hb with h0 | hr
        · subst h0
          refine ⟨by rw [hsb], fun e hee => ?_⟩
          rw [hsb] at hee
          exact List.mem_append.mpr (Or.inl hee)
        · have hok2 : (scheduleAllBuilds env c r n rest).2 = none := by
            rw [hrest]; exact hok
          obtain ⟨h1, h2⟩ := ih hok2 b hr hbd
          refine ⟨h1, fun e hee => ?_⟩
          have := h2 e hee
          rw [hrest] at this
          exact List.mem_append.mpr (Or.inr this)

/-- A getBuildsWhileCancellingExisting run that returned a build list returned the
(repo, custom=false) rows of the catalog, having cancelled all of them. -/
theorem gw_ok_builds (env : Env) (c : Config) (r : String) (n : Int) (builds : List Build)
    (h : (getBuildsWhileCancellingExisting env c r n).2 = Except.ok builds) :
    builds = c.builds.filter (fun b => b.repo == r && false == b.custom) ∧
    (cancelAll env c r n builds).2 = Except.ok () ∧
    (getBuildsWhileCancellingExisting env c r n).1 = (cancelAll env c r n builds).1 := by
  cases hb : getBuilds c r false with
  | error e => simp [getBuildsWhileCancellingExisting, hb] at h
  | ok builds0 =>
    rcases hca : cancelAll env c r n builds0 with ⟨ev, res⟩
    cases res with
    | error e2 => simp [getBuildsWhileCancellingExisting, hb, hca] at h
    | ok u =>
      cases u
      simp only [getBuildsWhileCancellingExisting, hb, hca] at h
      have hb0 : builds0 = builds := by simpa using h
      subst hb0
      have hfil : builds0 = c.builds.filter (fun b => b.repo == r && false == b.custom) := by
        unfold getBuilds at hb
        by_cases hl : (c.builds.filter (fun b => b.repo == r && false == b.custom)).length ≤ 0
        · rw [if_pos hl] at hb
          exact absurd hb (by simp)
        · rw [if_neg hl] at hb
          exact (Except.ok.inj hb).symm
      refine ⟨hfil, by rw [hca], ?_⟩
      simp [getBuildsWhileCancellingExisting, hb, hca]

/-- Under a triggering action, a loadable PR, a mergeable verdict and an authorized
author, githubHandler delegates to startJenkinsBuilds: same events, same response. -/
theorem githubHandler_authorized (env : Env) (c : Config) (hook : PRHook)
    (ha : (hook.action == "opened" || hook.action == "reopened" ||
      hook.action == "synchronize") = true)
    (hload : exOk (prLoad env.loadContent).2 = true)
    (hm : env.mergeable = Except.ok true)
    (hauth : (isValidMember env c hook.authorLogin).2 = true) :
    (githubHandler env c hook).events =
      (startJenkinsBuilds env c (baseRepoOf hook) hook.number).1 ∧
    (githubHandler env c hook).response =
      (startJenkinsBuilds env c (baseRepoOf hook) hook.number).2 := by
  rcases hpl : prLoad env.loadContent with ⟨ds, res⟩
  cases res with
  | error e =>
    rw [hpl] at hload
    simp [exOk] at hload
  | ok content =>
    have hchk : checkIsAuthorizedPRAuthor env c hook content = ([], true) := by
      simp [checkIsAuthorizedPRAuthor, hauth]
    rcases hst : startJenkinsBuilds env c (baseRepoOf hook) hook.number with ⟨ev, code⟩
    constructor <;> simp [githubHandler, ha, hpl, hm, hchk, hst]

/-- C1: for an authorized, mergeable pull-request event with a triggering action,
the engine first issues only cancellation calls and then only non-cancellation
calls; if the cancellation stage fails nothing is scheduled; and when the whole
sequence succeeds, the build list is exactly the (repo, custom=false) catalog rows,
every build with an active instance k got its stop call, and every non-downstream
build got a schedule call for each resolved sha. -/
theorem c1_cancel_then_schedule (env : Env) (c : Config) (hook : PRHook) (pr : PRData)
    (ha : (hook.action == "opened" || hook.action == "reopened" ||
      hook.action == "synchronize") = true)
    (hload : exOk (prLoad env.loadContent).2 = true)
    (hm : env.mergeable = Except.ok true)
    (hauth : (isValidMember env c hook.authorLogin).2 = true)
    (hpr : env.prFetch = Except.ok pr) :
    ((githubHandler env c hook).events =
        (startJenkinsBuilds env c (baseRepoOf hook) hook.number).1 ∧
      (githubHandler env c hook).response =
        (startJenkinsBuilds env c (baseRepoOf hook) hook.number).2) ∧
    (∃ evC evS, (startJenkinsBuilds env c (baseRepoOf hook) hook.number).1 = evC ++ evS ∧
      (∀ e ∈ evC, e.isCancel = true) ∧ (∀ e ∈ evS, e.isCancel = false)) ∧
    (∀ e2, (getBuildsWhileCancellingExisting env c (baseRepoOf hook) hook.number).2 =
        Except.error e2 →
      ∀ e ∈ (startJenkinsBuilds env c (baseRepoOf hook) hook.number).1,
        e.isSchedule = false) ∧
    ((startJenkinsBuilds env c (baseRepoOf hook) hook.number).2 = none →
      ∀ builds,
        (getBuildsWhileCancellingExisting env c (baseRepoOf hook) hook.number).2 =
          Except.ok builds →
        builds = c.builds.filter (fun b => b.repo == baseRepoOf hook && false == b.custom) ∧
        (∀ b ∈ builds, ∀ k, env.jobInstance b.job pr.number = Except.ok k → k ≠ 0 →
          Event.cancelCall b.job k ∈
            (startJenkinsBuilds env c (baseRepoOf hook) hook.number).1) ∧
        (∀ b ∈ builds, b.downstream = false →
          ∀ shas pr2, getShas env c b.context hook.number = Except.ok (shas, pr2) →
            ∀ sha ∈ shas,
              Event.scheduleCall b.job
                  (buildParams (baseRepoOf hook) (headRepoOf pr2) sha pr2.number pr2.baseRef) ∈
                (startJenkinsBuilds env c (baseRepoOf hook) hook.number).1)) := by
  refine ⟨githubHandler_authorized env c hook ha hload hm hauth, ?_, ?_, ?_⟩
  · rcases hgw : getBuildsWhileCancellingExisting env c (baseRepoOf hook) hook.number
      with ⟨evG, resG⟩
    have hevG : ∀ e ∈ evG, e.isCancel = true := by
      intro e hee
      apply gw_events_cancel env c (baseRepoOf hook) hook.number
      rw [hgw]
      exact hee
    cases resG with
    | error e2 =>
      refine ⟨evG, [], ?_, hevG, by simp⟩
      simp [startJenkinsBuilds, hgw]
    | ok builds =>
      rcases hsa : scheduleAllBuilds env c (baseRepoOf hook) hook.number builds
        with ⟨evS, resS⟩
      refine ⟨evG, evS, ?_, hevG, ?_⟩
      · simp [startJenkinsBuilds, hgw, hsa]
      · intro e hee
        apply scheduleAllBuilds_no_cancel env c (baseRepoOf hook) hook.number builds
        rw [hsa]
        exact hee
  · intro e2 herr e hee
    rcases hgw : getBuildsWhileCancellingExisting env c (baseRepoOf hook) hook.number
      with ⟨evG, resG⟩
    rw [hgw] at herr
    simp only [] at herr
    subst herr
    simp only [startJenkinsBuilds, hgw] at hee
    have hc : e.isCancel = true := by
      apply gw_events_cancel env c (baseRepoOf hook) hook.number
      rw [hgw]
      exact hee
    exact (isCancel_elim e hc).1
  · intro hnone builds hbuilds
    rcases hgw : getBuildsWhileCancellingExisting env c (baseRepoOf hook) hook.number
      with ⟨evG, resG⟩
    rw [hgw] at hbuilds
    simp only [] at hbuilds
    subst hbuilds
    obtain ⟨hfil, hcanOk, hevEq⟩ := gw_ok_builds env c (baseRepoOf hook) hook.number builds
      (by rw [hgw])
    rcases hsa : scheduleAllBuilds env c (baseRepoOf hook) hook.number builds
      with ⟨evS, resS⟩
    have hstart : startJenkinsBuilds env c (baseRepoOf hook) hook.number =
        (evG ++ evS, resS) := by
      simp [startJenkinsBuilds, hgw, hsa]
    rw [hstart] at hnone
    simp only [] at hnone
    subst hnone
    refine ⟨hfil, ?_, ?_⟩
    · intro b hbmem k hj hk
      have hm2 := cancelAll_ok_calls env c (baseRepoOf hook) hook.number builds pr hpr
        hcanOk b hbmem k hj hk
      rw [← hevEq, hgw] at hm2
      rw [hstart]
      exact List.mem_append.mpr (Or.inl hm2)
    · intro b hbmem hbd shas pr2 hg sha hsha
      obtain ⟨hsok, hincl⟩ := scheduleAllBuilds_none_mem env c (baseRepoOf hook) hook.number
        builds (by rw [hsa]) b hbmem hbd
      have hm2 := scheduleJenkinsBuild_ok_mem env c (baseRepoOf hook) hook.number b shas pr2
        hg hsok sha hsha
      have hm3 := hincl _ hm2
      rw [hsa] at hm3
      rw [hstart]
      exact List.mem_append.mpr (Or.inr hm3)

/-- C1 witness: a concrete authorized, mergeable synchronize event on repo o/r with
one catalog row, an active instance 4 and a fully successful environment. -/
theorem c1_cancel_then_schedule_witness :
    ((hookSync.action == "opened" || hookSync.action == "reopened" ||
        hookSync.action == "synchronize") = true ∧
      exOk (prLoad baseEnv.loadContent).2 = true ∧
      baseEnv.mergeable = Except.ok true ∧
      (isValidMember baseEnv cfgNew "alice").2 = true ∧
      baseEnv.prFetch = Except.ok prA) ∧
    (((githubHandler baseEnv cfgNew hookSync).events =
        (startJenkinsBuilds baseEnv cfgNew (baseRepoOf hookSync) hookSync.number).1 ∧
      (githubHandler baseEnv cfgNew hookSync).response =
        (startJenkinsBuilds baseEnv cfgNew (baseRepoOf hookSync) hookSync.number).2) ∧
    (∃ evC evS,
      (startJenkinsBuilds baseEnv cfgNew (baseRepoOf hookSync) hookSync.number).1 =
        evC ++ evS ∧
      (∀ e ∈ evC, e.isCancel = true) ∧ (∀ e ∈ evS, e.isCancel = false)) ∧
    (∀ e2, (getBuildsWhileCancellingExisting baseEnv cfgNew (baseRepoOf hookSync)
        hookSync.number).2 = Except.error e2 →
      ∀ e ∈ (startJenkinsBuilds baseEnv cfgNew (baseRepoOf hookSync) hookSync.number).1,
        e.isSchedule = false) ∧
    ((startJenkinsBuilds baseEnv cfgNew (baseRepoOf hookSync) hookSync.number).2 = none →
      ∀ builds,
        (getBuildsWhileCancellingExisting baseEnv cfgNew (baseRepoOf hookSync)
          hookSync.number).2 = Except.ok builds →
        builds = cfgNew.builds.filter
          (fun b => b.repo == baseRepoOf hookSync && false == b.custom) ∧
        (∀ b ∈ builds, ∀ k, baseEnv.jobInstance b.job prA.number = Except.ok k → k ≠ 0 →
          Event.cancelCall b.job k ∈
            (startJenkinsBuilds baseEnv cfgNew (baseRepoOf hookSync) hookSync.number).1) ∧
        (∀ b ∈ builds, b.downstream = false →
          ∀ shas pr2, getShas baseEnv cfgNew b.context hookSync.number =
              Except.ok (shas, pr2) →
            ∀ sha ∈ shas,
              Event.scheduleCall b.job
                  (buildParams (baseRepoOf hookSync) (headRepoOf pr2) sha pr2.number
                    pr2.baseRef) ∈
                (startJenkinsBuilds baseEnv cfgNew (baseRepoOf hookSync) hookSync.number).1))) :=
  ⟨⟨by decide, by decide, rfl, by decide, rfl⟩,
    c1_cancel_then_schedule baseEnv cfgNew hookSync prA (by decide) (by decide) rfl
      (by decide) rfl⟩

/-- The authorization verdict for an unauthorized author is false whatever the
comment and status outcomes. -/
theorem checkIsAuthorized_verdict (env : Env) (c : Config) (hook : PRHook)
    (content : List CommentRec)
    (hnv : (isValidMember env c hook.authorLogin).2 = false) :
    (checkIsAuthorizedPRAuthor env c hook content).2 = false := by
  rcases hAU : AddUniqueComment env content (unauthorizedComment hook.authorLogin)
    "Unapproved user" with ⟨ev1, res1⟩
  cases res1 <;> simp [checkIsAuthorizedPRAuthor, hnv, hAU]

/-- The reject-and-notify trace for an unauthorized author: the explanatory comment
exactly when no marker comment exists yet, followed by the one unauthorized-context
failure status write. -/
theorem checkIsAuthorized_events (env : Env) (c : Config) (hook : PRHook)
    (content : List CommentRec)
    (hnv : (isValidMember env c hook.authorLogin).2 = false)
    (hadd : ∀ s, env.addComment s = Except.ok ()) :
    (checkIsAuthorizedPRAuthor env c hook content).1 =
      (if content.any (fun cm => strContains cm.body "Unapproved user") then [] else
        [Event.commentAdd (unauthorizedComment hook.authorLogin)]) ++
      [Event.statusWrite (baseRepoOf hook) "mantid/unauthorized" hook.headSha "failure"] := by
  by_cases hc : content.any (fun cm => strContains cm.body "Unapproved user") = true
  · have hAU : AddUniqueComment env content (unauthorizedComment hook.authorLogin)
        "Unapproved user" = ([], Except.ok ()) := by
      simp [AddUniqueComment, hc]
    simp [checkIsAuthorizedPRAuthor, hnv, hAU, FailureStatus, hc]
  · have hcf : content.any (fun cm => strContains cm.body "Unapproved user") = false := by
      simpa using hc
    have hAU : AddUniqueComment env content (unauthorizedComment hook.authorLogin)
        "Unapproved user" =
        ([Event.commentAdd (unauthorizedComment hook.authorLogin)], Except.ok ()) := by
      simp [AddUniqueComment, hcf, hadd]
    simp [checkIsAuthorizedPRAuthor, hnv, hAU, FailureStatus, hcf]

/-- Under a triggering action, a loadable PR, a mergeable verdict and an
unauthorized author, githubHandler rejects-and-notifies, still runs the
cancellation stage, and answers 200. -/
theorem githubHandler_unauthorized (env : Env) (c : Config) (hook : PRHook)
    (content : List CommentRec)
    (ha : (hook.action == "opened" || hook.action == "reopened" ||
      hook.action == "synchronize") = true)
    (hload : (prLoad env.loadContent).2 = Except.ok content)
    (hm : env.mergeable = Except.ok true)
    (hnv : (isValidMember env c hook.authorLogin).2 = false) :
    githubHandler env c hook =
      ⟨(checkIsAuthorizedPRAuthor env c hook content).1 ++
          (getBuildsWhileCancellingExisting env c (baseRepoOf hook) hook.number).1,
        (prLoad env.loadContent).1, some 200⟩ := by
  rcases hpl : prLoad env.loadContent with ⟨ds, res⟩
  rw [hpl] at hload
  simp only [] at hload
  subst hload
  rcases hchk : checkIsAuthorizedPRAuthor env c hook content with ⟨authEv, verdict⟩
  have hv := checkIsAuthorized_verdict env c hook content hnv
  rw [hchk] at hv
  simp only [] at hv
  subst hv
  simp [githubHandler, ha, hpl, hm, hchk]

/-- C3: for a triggering event whose author is unauthorized (with the comment and
status writes succeeding), exactly one explanatory comment is added when the
comment-kind marker is absent and none when it is already present, exactly one
failure status is written under the fixed unauthorized context, the cancellation
stage still runs, no build is scheduled, and the response is 200. -/
theorem c3_unauthorized_author (env : Env) (c : Config) (hook : PRHook)
    (content : List CommentRec)
    (ha : (hook.action == "opened" || hook.action == "reopened" ||
      hook.action == "synchronize") = true)
    (hload : (prLoad env.loadContent).2 = Except.ok content)
    (hm : env.mergeable = Except.ok true)
    (hnv : (isValidMember env c hook.authorLogin).2 = false)
    (hadd : ∀ s, env.addComment s = Except.ok ()) :
    (content.any (fun cm => strContains cm.body "Unapproved user") = false →
      (githubHandler env c hook).events =
        Event.commentAdd (unauthorizedComment hook.authorLogin) ::
          Event.statusWrite (baseRepoOf hook) "mantid/unauthorized" hook.headSha "failure" ::
            (getBuildsWhileCancellingExisting env c (baseRepoOf hook) hook.number).1) ∧
    (content.any (fun cm => strContains cm.body "Unapproved user") = true →
      (githubHandler env c hook).events =
        Event.statusWrite (baseRepoOf hook) "mantid/unauthorized" hook.headSha "failure" ::
          (getBuildsWhileCancellingExisting env c (baseRepoOf hook) hook.number).1) ∧
    (((githubHandler env c hook).events.filter Event.isComment).length =
      if content.any (fun cm => strContains cm.body "Unapproved user") then 0 else 1) ∧
    (((githubHandler env c hook).events.filter Event.isUnauthorizedFailure).length = 1) ∧
    (∀ e ∈ (githubHandler env c hook).events, e.isSchedule = false) ∧
    ((githubHandler env c hook).response = some 200) := by
  have hgh := githubHandler_unauthorized env c hook content ha hload hm hnv
  have hev := checkIsAuthorized_events env c hook content hnv hadd
  have hcanC : ∀ e ∈ (getBuildsWhileCancellingExisting env c (baseRepoOf hook)
      hook.number).1, e.isCancel = true :=
    gw_events_cancel env c (baseRepoOf hook) hook.number
  have hcomFil : (getBuildsWhileCancellingExisting env c (baseRepoOf hook)
      hook.number).1.filter Event.isComment = [] := by
    rw [List.filter_eq_nil_iff]
    intro e hee
    have h1 := (isCancel_elim e (hcanC e hee)).2.1
    simp [h1]
  have hfailFil : (getBuildsWhileCancellingExisting env c (baseRepoOf hook)
      hook.number).1.filter Event.isUnauthorizedFailure = [] := by
    rw [List.filter_eq_nil_iff]
    intro e hee
    have h1 := (isCancel_elim e (hcanC e hee)).2.2
    simp [h1]
  refine ⟨fun hc => ?_, fun hc => ?_, ?_, ?_, ?_, ?_⟩
  · rw [hgh]
    simp only []
    rw [hev, hc]
    simp
  · rw [hgh]
    simp only []
    rw [hev, hc]
    simp
  · rw [hgh]
    simp only []
    rw [hev]
    by_cases hc : content.any (fun cm => strContains cm.body "Unapproved user") = true
    · rw [hc]
      simp [List.filter_append, hcomFil, Event.isComment, Event.isUnauthorizedFailure]
    · have hcf : content.any (fun cm => strContains cm.body "Unapproved user") = false := by
        simpa using hc
      rw [hcf]
      simp [List.filter_append, hcomFil, Event.isComment]
  · rw [hgh]
    simp only []
    rw [hev]
    by_cases hc : content.any (fun cm => strContains cm.body "Unapproved user") = true
    · rw [hc]
      simp [List.filter_append, hfailFil, Event.isUnauthorizedFailure]
    · have hcf : content.any (fun cm => strContains cm.body "Unapproved user") = false := by
        simpa using hc
      rw [hcf]
      simp [List.filter_append, hfailFil, Event.isUnauthorizedFailure, Event.isComment]
  · intro e hee
    rw [hgh] at hee
    simp only [] at hee
    rw [hev] at hee
    simp only [List.mem_append] at hee
    rcases hee with hee | hee
    · rcases hee with hee | hee
      · by_cases hc : content.any (fun cm => strContains cm.body "Unapproved user") = true
        · rw [hc] at hee
          simp at hee
        · have hcf : content.any (fun cm => strContains cm.body "Unapproved user") = false :=
            by simpa using hc
          rw [hcf] at hee
          simp at hee
          rw [hee]
          rfl
      · simp at hee
        rw [hee]
        rfl
    · exact (isCancel_elim e (hcanC e hee)).1
  · rw [hgh]

/-- An environment where no team reports membership: every author is unauthorized. -/
def unauthEnv : Env := { baseEnv with teamStatus := fun _ _ => Except.ok 404 }

/-- A bot comment carrying the comment-kind marker of the unauthorized rejection. -/
def markerComment : CommentRec := ⟨"leeroy-bot", "flagged as Unapproved user earlier"⟩

/-- The unauthorized environment on a later synchronize of the same PR: the loaded
content now holds the marker comment. -/
def unauthEnv2 : Env := { unauthEnv with loadContent := fun _ => Except.ok [markerComment] }

/-- C3 witness: a first unauthorized synchronize adds the comment and the failure
status before the cancellations; a repeat with the marker comment present adds no
second comment but still writes the status and cancels; neither schedules. -/
theorem c3_unauthorized_author_witness :
    ((hookSync.action == "opened" || hookSync.action == "reopened" ||
        hookSync.action == "synchronize") = true ∧
      (prLoad unauthEnv.loadContent).2 = Except.ok [] ∧
      unauthEnv.mergeable = Except.ok true ∧
      (isValidMember unauthEnv cfgNew "alice").2 = false ∧
      (prLoad unauthEnv2.loadContent).2 = Except.ok [markerComment]) ∧
    ((githubHandler unauthEnv cfgNew hookSync).events =
      Event.commentAdd (unauthorizedComment "alice") ::
        Event.statusWrite "o/r" "mantid/unauthorized" "c3" "failure" ::
          (getBuildsWhileCancellingExisting unauthEnv cfgNew "o/r" 7).1) ∧
    ((githubHandler unauthEnv2 cfgNew hookSync).events =
      Event.statusWrite "o/r" "mantid/unauthorized" "c3" "failure" ::
        (getBuildsWhileCancellingExisting unauthEnv2 cfgNew "o/r" 7).1) ∧
    (∀ e ∈ (githubHandler unauthEnv cfgNew hookSync).events, e.isSchedule = false) ∧
    ((githubHandler unauthEnv cfgNew hookSync).response = some 200) := by
  have h1 := c3_unauthorized_author unauthEnv cfgNew hookSync [] (by decide) (by decide) rfl
    (by decide) (fun s => rfl)
  have h2 := c3_unauthorized_author unauthEnv2 cfgNew hookSync [markerComment] (by decide)
    (by decide) rfl (by decide) (fun s => rfl)
  refine ⟨⟨by decide, by decide, rfl, by decide, by decide⟩, ?_, ?_, h1.2.2.2.2.1, h1.2.2.2.2.2⟩
  · have := h1.1 (by decide)
    simpa using this
  · have := h2.2.1 (by decide)
    simpa using this

/-- C7: only a submitted review whose body, after trimming surrounding whitespace,
equals "rerun ci" case-insensitively is actionable: a non-submitted review, or a
submitted one with any other body, yields an empty trace (zero scheduling calls, no
side effects) and a 200. For an actionable review, an authorized reviewer gets the
prior unauthorized status cleared to success on the re-fetched current head sha
followed by exactly one run of the cancel-then-schedule sequence (response 200, or
the sequence's own 500); an unauthorized reviewer gets a 403 with no side effects. -/
theorem c7_review_rerun (env : Env) (c : Config) (hook : ReviewHook) (pr : PRData)
    (hs : hook.action = "submitted") :
    (equalFold (trimSpace hook.reviewBody) "rerun ci" = true →
      ((isValidMember env c hook.reviewerLogin).2 = true →
        env.reviewPRFetch = Except.ok pr →
        handlePullRequestReview env c hook =
          (Event.statusWrite (reviewRepoOf hook) "mantid/unauthorized" pr.headSha "success" ::
              (startJenkinsBuilds env c (reviewRepoOf hook) hook.prNumber).1,
            match (startJenkinsBuilds env c (reviewRepoOf hook) hook.prNumber).2 with
            | some n => some n
            | none => some 200)) ∧
      ((isValidMember env c hook.reviewerLogin).2 = false →
        handlePullRequestReview env c hook = ([], some 403))) ∧
    (∀ hook2 : ReviewHook, hook2.action ≠ "submitted" →
      handlePullRequestReview env c hook2 = ([], some 200)) ∧
    (equalFold (trimSpace hook.reviewBody) "rerun ci" = false →
      handlePullRequestReview env c hook = ([], some 200)) := by
  refine ⟨fun hb => ⟨?_, ?_⟩, fun hook2 hs2 => ?_, fun hbf => ?_⟩
  · intro hv hf
    have hsvc : setValidationCheckPassed env hook =
        [Event.statusWrite (reviewRepoOf hook) "mantid/unauthorized" pr.headSha "success"] := by
      simp [setValidationCheckPassed, hf, SuccessStatus]
    rcases hst : startJenkinsBuilds env c (reviewRepoOf hook) hook.prNumber with ⟨ev, code⟩
    simp [handlePullRequestReview, hs, hb, hv, hst, hsvc]
  · intro hv
    simp [handlePullRequestReview, hs, hb, hv]
  · have hs3 : (hook2.action == "submitted") = false := by simp [hs2]
    simp [handlePullRequestReview, hs3]
  · simp [handlePullRequestReview, hs, hbf]

/-- A submitted review of PR 7 on o/r whose body is "  Rerun CI  ". -/
def reviewHookA : ReviewHook := ⟨"submitted", "  Rerun CI  ", "alice", 7, "o", "r"⟩

/-- The same review event with an edited (non-submitted) action. -/
def reviewHookEdited : ReviewHook := ⟨"edited", "  Rerun CI  ", "alice", 7, "o", "r"⟩

/-- A submitted review of PR 7 on o/r whose body does not match "rerun ci". -/
def reviewHookNoMatch : ReviewHook := ⟨"submitted", "lgtm", "alice", 7, "o", "r"⟩

/-- C7 witness: the mixed-case whitespace-framed body from an authorized reviewer
clears the unauthorized status on the re-fetched head sha and runs the scheduling
sequence once; the same body from an unauthorized reviewer yields 403 and nothing
else; an edited action or an "lgtm" body does nothing and answers 200. -/
theorem c7_review_rerun_witness :
    (reviewHookA.action = "submitted" ∧
      equalFold (trimSpace reviewHookA.reviewBody) "rerun ci" = true ∧
      (isValidMember baseEnv cfgNew "alice").2 = true ∧
      baseEnv.reviewPRFetch = Except.ok prA ∧
      (isValidMember unauthEnv cfgNew "alice").2 = false ∧
      reviewHookEdited.action ≠ "submitted" ∧
      equalFold (trimSpace reviewHookNoMatch.reviewBody) "rerun ci" = false) ∧
    (handlePullRequestReview baseEnv cfgNew reviewHookA =
      (Event.statusWrite "o/r" "mantid/unauthorized" "c3" "success" ::
          (startJenkinsBuilds baseEnv cfgNew "o/r" 7).1,
        match (startJenkinsBuilds baseEnv cfgNew "o/r" 7).2 with
        | some n => some n
        | none => some 200)) ∧
    (handlePullRequestReview unauthEnv cfgNew reviewHookA = ([], some 403)) ∧
    (handlePullRequestReview baseEnv cfgNew reviewHookEdited = ([], some 200)) ∧
    (handlePullRequestReview baseEnv cfgNew reviewHookNoMatch = ([], some 200)) := by
  have h1 := ((c7_review_rerun baseEnv cfgNew reviewHookA prA rfl).1 (by decide)).1
    (by decide) rfl
  have h2 := ((c7_review_rerun unauthEnv cfgNew reviewHookA prA rfl).1 (by decide)).2
    (by decide)
  have h3 := (c7_review_rerun baseEnv cfgNew reviewHookA prA rfl).2.1 reviewHookEdited
    (by decide)
  have h4 := (c7_review_rerun baseEnv cfgNew reviewHookNoMatch prA rfl).2.2 (by decide)
  exact ⟨⟨rfl, by decide, by decide, rfl, by decide, by decide, by decide⟩,
    by simpa using h1, h2, h3, h4⟩

end Leeroy
